import Mathlib

/-!
# Verification of the phaser-game-core sound/asset/color layer

A shallow embedding of the repository's `SoundManager`
(src/src/systems/SoundManager.ts), `AssetManager`
(src/unnamed/part_001, compiled from src/systems/AssetsManager.ts) and
`ColorUtils` (src/unnamed/part_003, compiled from src/const/ColorDef.ts).

JS `Map`s become association lists that keep insertion order (`Map.set`
on an existing key replaces the value in place, otherwise appends);
mutation of an object obtained from a map becomes an in-place update of
the first entry with that key (`updateA`).  Playback handles owned by the
host engine become natural-number ids paired with an explicit
`HandleState` (current volume, playing/paused/stopped, and the category
recorded by the `once("stop"/"complete")` listeners that `playSound`
installs).  The host's synchronous event delivery (a `stop()` call fires
the `stop` listener at once) is folded into `stopHandle`; asynchronous
tween completions (`fadeOutSound`'s `onComplete`) are kept as pending
records fired by an explicit event step.  Volumes are rationals; Phaser's
`Math.Clamp(v, 0, 1)` is `clampQ`.
-/

/-- First value stored under `key`, as JS `Map.get` / first-occurrence lookup. -/
def lookupA {κ α : Type} [DecidableEq κ] : List (κ × α) → κ → Option α
  | [], _ => none
  | p :: rest, key => if p.1 = key then some p.2 else lookupA rest key

/-- JS `Map.set`: replace the value at the key's existing slot, else append. -/
def setAssoc {κ α : Type} [DecidableEq κ] : List (κ × α) → κ → α → List (κ × α)
  | [], key, v => [(key, v)]
  | p :: rest, key, v => if p.1 = key then (p.1, v) :: rest else p :: setAssoc rest key v

/-- Mutation through the reference returned by `Map.get`: rewrite the first
entry with this key in place, leave everything else untouched. -/
def updateA {κ α : Type} [DecidableEq κ] : List (κ × α) → κ → (α → α) → List (κ × α)
  | [], _, _ => []
  | p :: rest, key, f => if p.1 = key then (p.1, f p.2) :: rest else p :: updateA rest key f

/-- `Phaser.Math.Clamp(v, 0, 1) = Math.max(0, Math.min(1, v))`. -/
def clampQ (v : ℚ) : ℚ := max 0 (min 1 v)

/-- Truthiness-plus-positivity test `d && d > 0` on an optional duration. -/
def fadePos : Option ℚ → Bool
  | none => false
  | some d => decide (0 < d)

/-- Host-side state of one playback handle (a `Phaser.Sound.BaseSound`). -/
inductive HandleStatus : Type
  | playing
  | paused
  | stopped
deriving DecidableEq

/-- A playback handle id; the host allocates them fresh (`scene.sound.add`). -/
abbrev Handle := Nat

/-- What the model tracks per handle: its current volume, its status, and the
category name captured by the `once("complete"/"stop")` listeners registered in
`playSound` (`none` once the listeners have fired or were never installed). -/
structure HandleState : Type where
  volume : ℚ
  status : HandleStatus
  onStopCat : Option String
deriving DecidableEq

/-- interface SoundConfig (per-sound override configuration). -/
structure SoundConfig : Type where
  volume : Option ℚ := none
  rate : Option ℚ := none
  detune : Option ℚ := none
  seek : Option ℚ := none
  loop : Option Bool := none
  delay : Option ℚ := none
deriving DecidableEq

/-- The call-level `Phaser.Types.Sound.SoundConfig` override passed to
`playSound`/`playBGM`; the fields that reach the model. -/
structure PlayConfig : Type where
  volume : Option ℚ := none
  loop : Option Bool := none
deriving DecidableEq

/-- interface SoundCategory. -/
structure SoundCategory : Type where
  name : String
  volume : ℚ
  loop : Bool
  maxConcurrent : Nat
  interrupts : Bool
  fadeInDuration : Option ℚ
  fadeOutDuration : Option ℚ
  playingSounds : List Handle
deriving DecidableEq

/-- interface SoundCategoryConfig. -/
structure SoundCategoryConfig : Type where
  volume : Option ℚ := none
  loop : Option Bool := none
  maxConcurrent : Option Nat := none
  interrupts : Option Bool := none
  fadeInDuration : Option ℚ := none
  fadeOutDuration : Option ℚ := none
deriving DecidableEq

/-- interface SoundEntry. -/
structure SoundEntry : Type where
  key : String
  category : String
  path : List String
  config : SoundConfig
  isLoaded : Bool
deriving DecidableEq

/-- A fade-out tween created by `fadeOutSound`, waiting on the host's tween
system: its target handle, its duration, and whether its `onComplete`
callback is the BGM-clearing closure installed by `stopBGM`. -/
structure PendingFade : Type where
  handle : Handle
  duration : ℚ
  clearBGM : Bool
deriving DecidableEq

/-- interface SoundManagerSettings. -/
structure SoundManagerSettings : Type where
  globalVolume : ℚ
  isMuted : Bool
  categoryVolumes : List (String × ℚ)
deriving DecidableEq

/-- The `SoundManager`'s fields together with the host-engine state it
observes: the audio cache (`scene.cache.audio`), the live sound objects
(`handles`, allocated at `nextHandle`), and the outstanding fade-out tweens. -/
structure SMState : Type where
  sounds : List (String × SoundEntry)
  categories : List (String × SoundCategory)
  currentBGM : Option String
  bgmSound : Option Handle
  globalVolume : ℚ
  isMuted : Bool
  fadeTweens : List (String × Handle)
  audioKeys : List String
  handles : List (Handle × HandleState)
  nextHandle : Handle
  pendingFades : List PendingFade
deriving DecidableEq

/-- `defineCategory(name, config)`: upsert with defaults for unset fields.
The caller-supplied volume is stored unclamped, exactly as in the source. -/
def defineCategory (name : String) (config : SoundCategoryConfig) (s : SMState) : SMState :=
  { s with categories := (setAssoc s.categories name
    { name := name
      volume := config.volume.getD 1
      loop := config.loop.getD false
      maxConcurrent := config.maxConcurrent.getD 5
      interrupts := config.interrupts.getD false
      fadeInDuration := config.fadeInDuration
      fadeOutDuration := config.fadeOutDuration
      playingSounds := [] }) }

/-- The empty `SoundCategoryConfig` literal `{}`. -/
def emptyCatConfig : SoundCategoryConfig := {}

/-- `registerSound(key, category, path, config?)`: auto-create a missing
category with defaults, then overwrite the entry.  (The optional
`AssetManager` forwarding only touches the collaborator, not this state.) -/
def registerSound (key category : String) (path : List String)
    (config : Option SoundConfig) (s : SMState) : SMState :=
  let s1 := if (lookupA s.categories category).isSome then s
            else defineCategory category emptyCatConfig s
  { s1 with sounds := (setAssoc s1.sounds key
    { key := key, category := category, path := path
      config := config.getD {}, isLoaded := false }) }

/-- `sound.stop()` together with the synchronous `once("stop")` event it
fires: the handle's status becomes `stopped` and the listener removes the
handle from the `playingSounds` of the category it was registered for
(idempotent: `indexOf`/`splice` removes the first occurrence, if any). -/
def stopHandle (h : Handle) (s : SMState) : SMState :=
  let s1 := { s with handles := (updateA s.handles h
                (fun st => { st with status := HandleStatus.stopped, onStopCat := none })) }
  match lookupA s.handles h with
  | some st =>
    match st.onStopCat with
    | some catName =>
      { s1 with categories := (updateA s1.categories catName
          (fun c => { c with playingSounds := c.playingSounds.erase h })) }
    | none => s1
  | none => s1

/-- The tail of `playSound` from `scene.sound.add` on: create the handle with
the merged config volume (`{volume: cat * global, loop, ...entry.config,
...config}`), push it onto the category's `playingSounds`, install the
completion/stop listeners, and start playback (at volume 0 plus a fade-in
tween when `fadeInDuration > 0`). -/
def playSoundAdd (key : String) (config : PlayConfig) (entry : SoundEntry)
    (s : SMState) : Option Handle × SMState :=
  match lookupA s.categories entry.category with
  | none => (none, s)
  | some cat =>
    let h := s.nextHandle
    let merged := match config.volume with
      | some v => v
      | none => match entry.config.volume with
        | some v => v
        | none => cat.volume * s.globalVolume
    let fading := fadePos cat.fadeInDuration
    let st : HandleState :=
      { volume := if fading then 0 else merged
        status := HandleStatus.playing
        onStopCat := some entry.category }
    (some h,
      { s with
        handles := s.handles ++ [(h, st)]
        categories := (updateA s.categories entry.category
          (fun c => { c with playingSounds := c.playingSounds ++ [h] }))
        nextHandle := h + 1
        fadeTweens := (if fading then setAssoc s.fadeTweens (key ++ "_fadein") h
                       else s.fadeTweens) })

/-- The interrupt eviction step of `playSound`: `playingSounds.shift()`
followed by `oldestSound.stop()` (which fires the stop listener). -/
def evictOldest (catName : String) (cat : SoundCategory) (s : SMState) : SMState :=
  match cat.playingSounds with
  | [] => s
  | oldest :: _ =>
    stopHandle oldest
      { s with categories := (updateA s.categories catName
          (fun c => { c with playingSounds := c.playingSounds.tail })) }

/-- `playSound(key, config?)`: no-op (`null`) when muted, unregistered, the
category is missing, the key is not in `scene.cache.audio`, or the category is
full without interrupt permission; otherwise evict the oldest handle if the
category is full, then add, track and play the new sound. -/
def playSound (key : String) (config : PlayConfig) (s : SMState) :
    Option Handle × SMState :=
  if s.isMuted then (none, s)
  else match lookupA s.sounds key with
  | none => (none, s)
  | some entry =>
    match lookupA s.categories entry.category with
    | none => (none, s)
    | some cat =>
      if key ∈ s.audioKeys then
        if cat.maxConcurrent ≤ cat.playingSounds.length then
          if cat.interrupts then
            playSoundAdd key config entry (evictOldest entry.category cat s)
          else (none, s)
        else playSoundAdd key config entry s
      else (none, s)

/-- `fadeOutSound(sound, duration, onComplete?)`: start a fade-out tween;
`clearBGM` records whether `onComplete` is `stopBGM`'s BGM-clearing closure
(the only callback the source ever passes). -/
def fadeOutSound (h : Handle) (duration : ℚ) (clearBGM : Bool) (s : SMState) : SMState :=
  { s with pendingFades := (s.pendingFades ++
      [{ handle := h, duration := duration, clearBGM := clearBGM }]) }

/-- `stopBGM()`: with a positive `fadeOutDuration` on the BGM's category,
start a fade-out whose completion will stop the sound and clear the BGM
fields; otherwise stop at once and clear the BGM fields now. -/
def stopBGM (s : SMState) : SMState :=
  match s.bgmSound, s.currentBGM with
  | some h, some key =>
    match (match lookupA s.sounds key with
           | some e => lookupA s.categories e.category
           | none => none) with
    | some cat =>
      if fadePos cat.fadeOutDuration then
        fadeOutSound h ((cat.fadeOutDuration).getD 0) true s
      else
        { stopHandle h s with bgmSound := none, currentBGM := none }
    | none =>
      { stopHandle h s with bgmSound := none, currentBGM := none }
  | _, _ => s

/-- `playBGM(key, config?)`: stop the current BGM, play the key, and record
it as BGM when the play produced a handle. -/
def playBGM (key : String) (config : PlayConfig) (s : SMState) : SMState :=
  match playSound key config (stopBGM s) with
  | (some h, s2) => { s2 with currentBGM := some key, bgmSound := some h }
  | (none, s2) => s2

/-- The host's tween system finishes the earliest outstanding fade-out: the
tween has driven the volume to 0, `onComplete` stops the handle, and the
`stopBGM` callback (when that is the registered one) clears the BGM fields —
unconditionally, even if a different BGM has been recorded since. -/
def fireFadeOutComplete (s : SMState) : SMState :=
  match s.pendingFades with
  | [] => s
  | f :: rest =>
    let s1 := stopHandle f.handle
      { s with pendingFades := rest
               handles := (updateA s.handles f.handle (fun st => { st with volume := 0 })) }
    if f.clearBGM then { s1 with bgmSound := none, currentBGM := none } else s1

/-- `stopCategory(name)`: stop every handle of a copy of the list, then clear
the list. -/
def stopCategory (name : String) (s : SMState) : SMState :=
  match lookupA s.categories name with
  | none => s
  | some cat =>
    let s1 := cat.playingSounds.foldl (fun acc h => stopHandle h acc) s
    { s1 with categories := (updateA s1.categories name
        (fun c => { c with playingSounds := [] })) }

/-- `stopAll()`: `scene.sound.stopAll()` stops every live handle (firing the
stop listeners), every `playingSounds` list is cleared, the BGM fields are
reset and the fade-in tween map is cleared.  Pending fade-out tweens are NOT
cancelled: `fadeOutSound` never stores its tween in `fadeTweens`. -/
def stopAll (s : SMState) : SMState :=
  { s with
    handles := (s.handles.map
      (fun p => (p.1, { p.2 with status := HandleStatus.stopped, onStopCat := none })))
    categories := (s.categories.map (fun p => (p.1, { p.2 with playingSounds := [] })))
    currentBGM := none
    bgmSound := none
    fadeTweens := [] }

/-- `sound.setVolume(v)` on one handle. -/
def setHandleVolume (h : Handle) (v : ℚ) (hs : List (Handle × HandleState)) :
    List (Handle × HandleState) :=
  updateA hs h (fun st => { st with volume := v })

/-- `setCategoryVolume(name, volume)`: clamp, store, and re-apply the
effective volume to every handle in the category's `playingSounds`. -/
def setCategoryVolume (name : String) (volume : ℚ) (s : SMState) : SMState :=
  match lookupA s.categories name with
  | none => s
  | some cat =>
    let v := clampQ volume
    { s with
      categories := (updateA s.categories name (fun c => { c with volume := v }))
      handles := (cat.playingSounds.foldl
        (fun acc h => setHandleVolume h (v * s.globalVolume) acc) s.handles) }

/-- `setGlobalVolume(volume)`: clamp, store, and re-apply
`category.volume * globalVolume` to every handle of every category. -/
def setGlobalVolume (volume : ℚ) (s : SMState) : SMState :=
  let g := clampQ volume
  { s with
    globalVolume := g
    handles := (s.categories.foldl
      (fun acc p => p.2.playingSounds.foldl
        (fun acc2 h => setHandleVolume h (p.2.volume * g) acc2) acc) s.handles) }

/-- `scene.sound.pauseAll()` on one handle's status. -/
def pauseStatus : HandleStatus → HandleStatus
  | HandleStatus.playing => HandleStatus.paused
  | st => st

/-- `scene.sound.resumeAll()` on one handle's status. -/
def resumeStatus : HandleStatus → HandleStatus
  | HandleStatus.paused => HandleStatus.playing
  | st => st

/-- `setMuted(muted)`: store the flag and pause (resp. resume) all playback at
the host level; nothing is stopped and no tracking list is touched. -/
def setMuted (muted : Bool) (s : SMState) : SMState :=
  if muted then
    { s with isMuted := muted
             handles := (s.handles.map (fun p => (p.1, { p.2 with status := pauseStatus p.2.status }))) }
  else
    { s with isMuted := muted
             handles := (s.handles.map (fun p => (p.1, { p.2 with status := resumeStatus p.2.status }))) }

/-- `toggleMute()`. -/
def toggleMute (s : SMState) : SMState := setMuted (!s.isMuted) s

/-- `getCurrentBGM()`. -/
def getCurrentBGM (s : SMState) : Option String := s.currentBGM

/-- `saveSettings()`: snapshot of global volume, mute flag and the per-category
volumes in the map's iteration (= insertion) order. -/
def saveSettings (s : SMState) : SoundManagerSettings :=
  { globalVolume := s.globalVolume
    isMuted := s.isMuted
    categoryVolumes := (s.categories.map (fun p => (p.1, p.2.volume))) }

/-- `loadSettings(settings)`: re-apply each value through the corresponding
setter. -/
def loadSettings (settings : SoundManagerSettings) (s : SMState) : SMState :=
  settings.categoryVolumes.foldl (fun acc p => setCategoryVolume p.1 p.2 acc)
    (setMuted settings.isMuted (setGlobalVolume settings.globalVolume s))

/-- The state of a freshly constructed manager before `setupDefaultCategories`. -/
def emptySM : SMState :=
  { sounds := [], categories := [], currentBGM := none, bgmSound := none
    globalVolume := 1, isMuted := false, fadeTweens := [], audioKeys := []
    handles := [], nextHandle := 0, pendingFades := [] }

/-- The constructor: `setupDefaultCategories` defines ui, sfx, bgm, voice and
ambient in that order. -/
def initSM : SMState :=
  defineCategory "ambient"
    { volume := some (1/2), loop := some true, maxConcurrent := some 3, interrupts := some false }
    (defineCategory "voice"
      { volume := some (9/10), maxConcurrent := some 1, interrupts := some true }
      (defineCategory "bgm"
        { volume := some (7/10), loop := some true, maxConcurrent := some 1,
          interrupts := some true, fadeInDuration := some 1000, fadeOutDuration := some 1000 }
        (defineCategory "sfx"
          { volume := some 1, maxConcurrent := some 10, interrupts := some false }
          (defineCategory "ui"
            { volume := some (4/5), maxConcurrent := some 5, interrupts := some false }
            emptySM))))

/-- One observable registry operation: a public method call or a host-engine
callback (playback completion, explicit stop, fade-out tween completion). -/
inductive Op : Type
  | defineCategory (name : String) (config : SoundCategoryConfig)
  | registerSound (key category : String) (path : List String) (config : Option SoundConfig)
  | playSound (key : String) (config : PlayConfig)
  | playBGM (key : String) (config : PlayConfig)
  | stopBGM
  | stopCategory (name : String)
  | stopAll
  | setCategoryVolume (name : String) (v : ℚ)
  | setGlobalVolume (v : ℚ)
  | setMuted (m : Bool)
  | toggleMute
  | loadSettings (settings : SoundManagerSettings)
  | hostStop (h : Handle)
  | hostComplete (h : Handle)
  | hostFadeOutComplete

/-- Effect of one operation (the `complete` listener performs the same
removal as the `stop` listener, so both host events step via `stopHandle`). -/
def stepOp : Op → SMState → SMState
  | Op.defineCategory name config, s => defineCategory name config s
  | Op.registerSound key category path config, s => registerSound key category path config s
  | Op.playSound key config, s => (playSound key config s).2
  | Op.playBGM key config, s => playBGM key config s
  | Op.stopBGM, s => stopBGM s
  | Op.stopCategory name, s => stopCategory name s
  | Op.stopAll, s => stopAll s
  | Op.setCategoryVolume name v, s => setCategoryVolume name v s
  | Op.setGlobalVolume v, s => setGlobalVolume v s
  | Op.setMuted m, s => setMuted m s
  | Op.toggleMute, s => toggleMute s
  | Op.loadSettings settings, s => loadSettings settings s
  | Op.hostStop h, s => stopHandle h s
  | Op.hostComplete h, s => stopHandle h s
  | Op.hostFadeOutComplete, s => fireFadeOutComplete s

/-- Run a sequence of operations. -/
def run (ops : List Op) (s : SMState) : SMState :=
  ops.foldl (fun acc op => stepOp op acc) s

/-! ## AssetManager (src/unnamed/part_001, `AssetManager`)

The `loadAssets`

```
async loadAssets(keys, onProgress) {
  if (this.isLoading) { console.warn("Already loading assets"); return; }
  this.isLoading = true;
  try { ...; return new Promise(...); }
  finally { this.isLoading = false; ... }
}
```

is split at its one asynchronous boundary: `loadAssetsCall` is the
synchronous part of one call (everything up to and including `return`), and
`loaderComplete` is the host loader's later `complete` event.  JS runs the
`finally` block when the `try` block *returns* the promise — not when that
promise settles — so `isLoading` is already false while the batch is still
in flight. -/

/-- AssetType enum. -/
inductive AssetType : Type
  | image
  | spritesheet
  | atlas
  | audio
  | json
  | xml
  | font
deriving DecidableEq

/-- One registered asset (key, type, path(s); atlas data collapsed into path). -/
structure AssetConfig : Type where
  key : String
  type : AssetType
  path : List String
deriving DecidableEq

/-- `AssetManager` fields plus the host loader it drives: the Phaser loader's
queued file keys, whether `scene.load.isLoading()`, and the batch whose
`once("complete")` handler (and promise resolution) is still outstanding. -/
structure AMState : Type where
  assetRegistry : List (String × AssetConfig)
  loadedAssets : List String
  isLoading : Bool
  loaderQueue : List String
  loaderRunning : Bool
  pendingBatch : Option (List String)
deriving DecidableEq

/-- How one `loadAssets` call returned. -/
inductive LoadCallResult : Type
  | alreadyLoading
  | noAssets
  | started
  | joinedRunning
deriving DecidableEq

/-- The synchronous part of one `loadAssets(keys?)` call.  The guard returns
at once when `isLoading` is set; otherwise the body queues the requested
assets, and — because `finally` runs when the `try` block returns — every
exit leaves `isLoading = false`, including the `started` exit whose batch is
still in flight. -/
def loadAssetsCall (keys : Option (List String)) (s : AMState) :
    LoadCallResult × AMState :=
  if s.isLoading then (LoadCallResult.alreadyLoading, s)
  else
    let assetsToLoad : List AssetConfig := match keys with
      | some ks => ks.filterMap (lookupA s.assetRegistry)
      | none => s.assetRegistry.map (fun p => p.2)
    if assetsToLoad.isEmpty then (LoadCallResult.noAssets, { s with isLoading := false })
    else
      let s1 := { s with loaderQueue := (s.loaderQueue ++ assetsToLoad.map (fun (a : AssetConfig) => a.key)) }
      if s.loaderRunning then (LoadCallResult.joinedRunning, { s1 with isLoading := false })
      else
        (LoadCallResult.started,
          { s1 with loaderRunning := true
                    pendingBatch := some (assetsToLoad.map (fun (a : AssetConfig) => a.key))
                    isLoading := false })

/-- The host loader's `complete` event: `onLoadComplete` marks the batch's
keys loaded and the promise resolves. -/
def loaderComplete (s : AMState) : AMState :=
  match s.pendingBatch with
  | some ks => { s with loadedAssets := s.loadedAssets ++ ks
                        pendingBatch := none
                        loaderRunning := false }
  | none => { s with loaderRunning := false }

/-- `registerAudio` and friends, as far as the registry is concerned. -/
def registerAsset (key : String) (type : AssetType) (path : List String)
    (s : AMState) : AMState :=
  { s with assetRegistry := (setAssoc s.assetRegistry key
      { key := key, type := type, path := path }) }

/-- A fresh `AssetManager`. -/
def initAM : AMState :=
  { assetRegistry := [], loadedAssets := [], isLoading := false
    loaderQueue := [], loaderRunning := false, pendingBatch := none }

/-! ## ColorUtils (src/unnamed/part_003, `ColorUtils`) -/

/-- One hex digit's numeric value, as `parseInt(-, 16)` reads a character
(case-insensitive); `none` for an invalid character. -/
def hexDigitVal (c : Char) : Option Nat :=
  if '0' ≤ c ∧ c ≤ '9' then some (c.toNat - '0'.toNat)
  else if 'a' ≤ c ∧ c ≤ 'f' then some (c.toNat - 'a'.toNat + 10)
  else if 'A' ≤ c ∧ c ≤ 'F' then some (c.toNat - 'A'.toNat + 10)
  else none

/-- `parseInt(-, 16)`'s digit loop: consume valid digits, stop at the first
invalid one. -/
def parseHexAux : List Char → Nat → Nat
  | [], acc => acc
  | c :: cs, acc =>
    match hexDigitVal c with
    | some d => parseHexAux cs (acc * 16 + d)
    | none => acc

/-- `parseInt(str, 16)`: `none` models `NaN` (no leading valid digit). -/
def parseIntHex (cs : List Char) : Option Nat :=
  match cs with
  | [] => none
  | c :: _ => if (hexDigitVal c).isSome then some (parseHexAux cs 0) else none

/-- `hexColor.replace("#", "")`: `String.replace` with a string pattern
removes the first occurrence only. -/
def removeFirstHash : List Char → List Char
  | [] => []
  | c :: cs => if c = '#' then cs else c :: removeFirstHash cs

/-- `ColorUtils.hexToNumber(hexColor)`. -/
def hexToNumber (hexColor : String) : Option Nat :=
  parseIntHex (removeFirstHash hexColor.data)

/-- The character `toString(16).toUpperCase()` uses for one digit value. -/
def hexDigitChar (d : Nat) : Char :=
  if d < 10 then Char.ofNat ('0'.toNat + d) else Char.ofNat ('A'.toNat + (d - 10))

/-- Base-16 digits of `n`, least significant first, by repeated division —
the digit loop of `Number.prototype.toString(16)`.  The first argument is
fuel; `n` itself is enough since `n / 16 < n` for `n > 0`. -/
def toHexRevAux : Nat → Nat → List Nat
  | 0, _ => []
  | fuel + 1, n => if n = 0 then [] else n % 16 :: toHexRevAux fuel (n / 16)

/-- `n.toString(16).toUpperCase()` as a character list (most significant
digit first; `0` prints as `"0"`). -/
def toHexUpper (n : Nat) : List Char :=
  if n = 0 then ['0'] else ((toHexRevAux n n).reverse.map hexDigitChar)

/-- `String.prototype.padStart(6, "0")`. -/
def padStart6 (cs : List Char) : List Char :=
  List.replicate (6 - cs.length) '0' ++ cs

/-- `ColorUtils.numberToHex(colorNumber)`. -/
def numberToHex (colorNumber : Nat) : String :=
  String.mk ('#' :: padStart6 (toHexUpper colorNumber))

/-! ## Association-list and clamp lemmas -/

theorem lookupA_updateA_self {κ α : Type} [DecidableEq κ] (l : List (κ × α)) (k : κ)
    (f : α → α) : lookupA (updateA l k f) k = (lookupA l k).map f := by
  induction l with
  | nil => rfl
  | cons p rest ih =>
    by_cases hp : p.1 = k
    · simp [updateA, lookupA, hp]
    · simp [updateA, lookupA, hp, ih]

theorem lookupA_updateA_ne {κ α : Type} [DecidableEq κ] (l : List (κ × α)) (k k' : κ)
    (f : α → α) (hne : k' ≠ k) : lookupA (updateA l k f) k' = lookupA l k' := by
  induction l with
  | nil => rfl
  | cons p rest ih =>
    by_cases hp : p.1 = k
    · simp [updateA, lookupA, hp, hne.symm]
    · simp [updateA, lookupA, hp, ih]

theorem map_fst_updateA {κ α : Type} [DecidableEq κ] (l : List (κ × α)) (k : κ)
    (f : α → α) : (updateA l k f).map Prod.fst = l.map Prod.fst := by
  induction l with
  | nil => rfl
  | cons p rest ih =>
    by_cases hp : p.1 = k
    · simp [updateA, hp]
    · simp [updateA, hp, ih]

theorem mem_updateA {κ α : Type} [DecidableEq κ] {l : List (κ × α)} {k : κ}
    {f : α → α} {q : κ × α} (hq : q ∈ updateA l k f) :
    q ∈ l ∨ ∃ c, lookupA l k = some c ∧ q = (k, f c) := by
  induction l with
  | nil => simp [updateA] at hq
  | cons p rest ih =>
    by_cases hp : p.1 = k
    · simp only [updateA, hp, if_pos] at hq
      rcases List.mem_cons.mp hq with h | h
      · exact Or.inr ⟨p.2, by simp [lookupA, hp], h⟩
      · exact Or.inl (List.mem_cons_of_mem _ h)
    · simp only [updateA, hp, if_neg, not_false_iff] at hq
      rcases List.mem_cons.mp hq with h | h
      · exact Or.inl (List.mem_cons.mpr (Or.inl h))
      · rcases ih h with h' | ⟨c, hc, hqc⟩
        · exact Or.inl (List.mem_cons_of_mem _ h')
        · exact Or.inr ⟨c, by simp [lookupA, hp, hc], hqc⟩

theorem mem_setAssoc {κ α : Type} [DecidableEq κ] {l : List (κ × α)} {k : κ}
    {v : α} {q : κ × α} (hq : q ∈ setAssoc l k v) : q = (k, v) ∨ q ∈ l := by
  induction l with
  | nil => simp [setAssoc] at hq; exact Or.inl (by simp [hq])
  | cons p rest ih =>
    by_cases hp : p.1 = k
    · simp only [setAssoc, hp, if_pos] at hq
      rcases List.mem_cons.mp hq with h | h
      · exact Or.inl h
      · exact Or.inr (List.mem_cons_of_mem _ h)
    · simp only [setAssoc, hp, if_neg, not_false_iff] at hq
      rcases List.mem_cons.mp hq with h | h
      · exact Or.inr (List.mem_cons.mpr (Or.inl h))
      · rcases ih h with h' | h'
        · exact Or.inl h'
        · exact Or.inr (List.mem_cons_of_mem _ h')

theorem lookupA_mem {κ α : Type} [DecidableEq κ] {l : List (κ × α)} {k : κ} {c : α}
    (h : lookupA l k = some c) : (k, c) ∈ l := by
  induction l with
  | nil => simp [lookupA] at h
  | cons p rest ih =>
    by_cases hp : p.1 = k
    · simp only [lookupA, hp, if_pos, Option.some.injEq] at h
      exact List.mem_cons.mpr (Or.inl (by rw [← h, ← hp]))
    · simp only [lookupA, hp, if_neg, not_false_iff] at h
      exact List.mem_cons_of_mem _ (ih h)

theorem lookupA_append {κ α : Type} [DecidableEq κ] (l₁ l₂ : List (κ × α)) (k : κ) :
    lookupA (l₁ ++ l₂) k =
      match lookupA l₁ k with
      | some v => some v
      | none => lookupA l₂ k := by
  induction l₁ with
  | nil => rfl
  | cons p rest ih =>
    by_cases hp : p.1 = k
    · simp [lookupA, hp]
    · simp [lookupA, hp, ih]

theorem clampQ_nonneg (v : ℚ) : 0 ≤ clampQ v := le_max_left 0 (min 1 v)

theorem clampQ_le_one (v : ℚ) : clampQ v ≤ 1 :=
  max_le zero_le_one (min_le_left 1 v)

theorem clampQ_eq_self {v : ℚ} (h0 : 0 ≤ v) (h1 : v ≤ 1) : clampQ v = v := by
  unfold clampQ
  rw [min_eq_right h1, max_eq_right h0]

/-! ## Volume propagation lemmas -/

/-- Setting one handle's volume: that handle's state gains the new volume. -/
theorem lookupA_setHandleVolume_self (hs : List (Handle × HandleState)) (h : Handle)
    (v : ℚ) : lookupA (setHandleVolume h v hs) h =
      (lookupA hs h).map (fun st => { st with volume := v }) :=
  lookupA_updateA_self hs h _

/-- Setting one handle's volume leaves every other handle alone. -/
theorem lookupA_setHandleVolume_ne (hs : List (Handle × HandleState)) (h h' : Handle)
    (v : ℚ) (hne : h' ≠ h) : lookupA (setHandleVolume h v hs) h' = lookupA hs h' :=
  lookupA_updateA_ne hs h h' _ hne

/-- A volume-propagation pass over a list of handles does not touch a handle
outside the list. -/
theorem foldVol_notMem (l : List Handle) (hs : List (Handle × HandleState)) (v : ℚ)
    (h : Handle) (hmem : h ∉ l) :
    lookupA (l.foldl (fun acc x => setHandleVolume x v acc) hs) h = lookupA hs h := by
  induction l generalizing hs with
  | nil => rfl
  | cons x xs ih =>
    have hx : h ≠ x := fun he => hmem (he ▸ List.mem_cons_self x xs)
    have hxs : h ∉ xs := fun hm => hmem (List.mem_cons_of_mem x hm)
    simp only [List.foldl_cons]
    rw [ih _ hxs, lookupA_setHandleVolume_ne _ _ _ _ hx]

/-- A volume-propagation pass sets the volume of every handle in the list. -/
theorem foldVol_mem (l : List Handle) (hs : List (Handle × HandleState)) (v : ℚ)
    (h : Handle) (hmem : h ∈ l) :
    lookupA (l.foldl (fun acc x => setHandleVolume x v acc) hs) h =
      (lookupA hs h).map (fun st => { st with volume := v }) := by
  induction l generalizing hs with
  | nil => simp at hmem
  | cons x xs ih =>
    simp only [List.foldl_cons]
    by_cases hxs : h ∈ xs
    · rw [ih _ hxs]
      by_cases hx : h = x
      · rw [hx, lookupA_setHandleVolume_self]
        cases lookupA hs x <;> rfl
      · rw [lookupA_setHandleVolume_ne _ _ _ _ hx]
    · have hx : h = x := by
        rcases List.mem_cons.mp hmem with h' | h'
        · exact h'
        · exact absurd h' hxs
      rw [foldVol_notMem _ _ _ _ hxs, hx, lookupA_setHandleVolume_self]

/-- The nested pass of `setGlobalVolume` does not touch a handle that is in no
category's `playingSounds`. -/
theorem globalFold_notMem (cats : List (String × SoundCategory))
    (hs : List (Handle × HandleState)) (g : ℚ) (h : Handle)
    (hmem : ∀ p ∈ cats, h ∉ p.2.playingSounds) :
    lookupA (cats.foldl (fun acc p => p.2.playingSounds.foldl
      (fun acc2 x => setHandleVolume x (p.2.volume * g) acc2) acc) hs) h = lookupA hs h := by
  induction cats generalizing hs with
  | nil => rfl
  | cons c cs ih =>
    simp only [List.foldl_cons]
    rw [ih _ (fun p hp => hmem p (List.mem_cons_of_mem c hp)),
      foldVol_notMem _ _ _ _ (hmem c (List.mem_cons_self c cs))]

/-- The nested pass of `setGlobalVolume` sets `vol * g` on a handle that
appears in some category's list, provided every category holding the handle
stores the same volume `vol` (true in every reachable state: a handle belongs
to exactly one category). -/
theorem globalFold_mem (cats : List (String × SoundCategory))
    (hs : List (Handle × HandleState)) (g : ℚ) (h : Handle) (vol : ℚ)
    (hsome : ∃ p ∈ cats, h ∈ p.2.playingSounds)
    (hagree : ∀ p ∈ cats, h ∈ p.2.playingSounds → p.2.volume = vol) :
    lookupA (cats.foldl (fun acc p => p.2.playingSounds.foldl
      (fun acc2 x => setHandleVolume x (p.2.volume * g) acc2) acc) hs) h =
      (lookupA hs h).map (fun st => { st with volume := vol * g }) := by
  induction cats generalizing hs with
  | nil => simp at hsome
  | cons c cs ih =>
    simp only [List.foldl_cons]
    by_cases hc : h ∈ c.2.playingSounds
    · have hcv : c.2.volume = vol := hagree c (List.mem_cons_self c cs) hc
      by_cases hcs : ∃ p ∈ cs, h ∈ p.2.playingSounds
      · rw [ih _ hcs (fun p hp hm => hagree p (List.mem_cons_of_mem c hp) hm),
          foldVol_mem _ _ _ _ hc, hcv]
        cases lookupA hs h <;> rfl
      · push_neg at hcs
        rw [globalFold_notMem _ _ _ _ hcs, foldVol_mem _ _ _ _ hc, hcv]
    · have hcs : ∃ p ∈ cs, h ∈ p.2.playingSounds := by
        rcases hsome with ⟨p, hp, hm⟩
        rcases List.mem_cons.mp hp with h' | h'
        · exact absurd (h' ▸ hm) hc
        · exact ⟨p, h', hm⟩
      rw [ih _ hcs (fun p hp hm => hagree p (List.mem_cons_of_mem c hp) hm),
        foldVol_notMem _ _ _ _ hc]

/-! ## C6: setGlobalVolume propagates categoryVolume * clamp(v) -/

/-- A registry with one active "ui" handle: `"click"` registered under "ui",
present in the audio cache, and playing as handle 0 at the ui volume 0.8. -/
def demoUI : SMState :=
  { sounds := [("click", ⟨"click", "ui", ["click.mp3"], {}, false⟩)]
    categories := [("ui", ⟨"ui", 4/5, false, 5, false, none, none, [0]⟩)]
    currentBGM := none, bgmSound := none, globalVolume := 1, isMuted := false
    fadeTweens := [], audioKeys := ["click"]
    handles := [(0, ⟨4/5, HandleStatus.playing, some "ui"⟩)]
    nextHandle := 1, pendingFades := [] }

/-- C6: for every number `v`, `setGlobalVolume(v)` stores `clamp(v,0,1)` as
the global volume and sets the volume of every active handle to
`categoryVolume * clamp(v,0,1)` — stated for any handle `h` active in a
category `(n, c)`, under the reachable-state condition that every category
holding `h` stores the same volume (a handle is tracked by exactly one
category). -/
theorem c6_setGlobalVolume_effective (s : SMState) (v : ℚ) (n : String)
    (c : SoundCategory) (h : Handle) (st : HandleState)
    (hc : (n, c) ∈ s.categories)
    (hh : h ∈ c.playingSounds)
    (hagree : ∀ p ∈ s.categories, h ∈ p.2.playingSounds → p.2.volume = c.volume)
    (hst : lookupA s.handles h = some st) :
    (setGlobalVolume v s).globalVolume = clampQ v ∧
    lookupA (setGlobalVolume v s).handles h =
      some { st with volume := c.volume * clampQ v } := by
  constructor
  · rfl
  · have hfold := globalFold_mem s.categories s.handles (clampQ v) h c.volume
      ⟨(n, c), hc, hh⟩ hagree
    simp only [setGlobalVolume]
    rw [hfold, hst]
    rfl

/-- The scenario of C6 at concrete inputs: `setCategoryVolume("ui", 0.5)` then
`setGlobalVolume(0.5)` leaves the active "ui" handle's volume at `0.25`. -/
theorem c6_setGlobalVolume_effective_witness :
    lookupA (setGlobalVolume (1/2) (setCategoryVolume "ui" (1/2) demoUI)).handles 0 =
      some { volume := 1/4, status := HandleStatus.playing, onStopCat := some "ui" } := by
  have h := (c6_setGlobalVolume_effective (setCategoryVolume "ui" (1/2) demoUI) (1/2) "ui"
    ⟨"ui", 1/2, false, 5, false, none, none, [0]⟩ 0
    ⟨1/2, HandleStatus.playing, some "ui"⟩
    (by norm_num [demoUI, setCategoryVolume, setHandleVolume, lookupA, updateA, clampQ])
    (by norm_num)
    (by norm_num [demoUI, setCategoryVolume, setHandleVolume, lookupA, updateA, clampQ])
    (by norm_num [demoUI, setCategoryVolume, setHandleVolume, lookupA, updateA, clampQ])).2
  rw [h]
  norm_num [clampQ]

/-! ## C7: muting pauses, playSound is a no-op while muted -/

/-- C7: while muted, `playSound` returns the no-op signal and changes nothing
at all; `setMuted(true)` pauses every playing handle at the host level
(nothing becomes stopped), touches no `playingSounds` list and no BGM state;
`setMuted(false)` resumes the paused handles. -/
theorem c7_mute_pause (s : SMState) (key : String) (config : PlayConfig) :
    (s.isMuted = true → playSound key config s = (none, s)) ∧
    ((setMuted true s).isMuted = true ∧
      (setMuted true s).categories = s.categories ∧
      (setMuted true s).currentBGM = s.currentBGM ∧
      (setMuted true s).bgmSound = s.bgmSound ∧
      (setMuted true s).handles =
        s.handles.map (fun p => (p.1, { p.2 with status := pauseStatus p.2.status }))) ∧
    ((setMuted false s).isMuted = false ∧
      (setMuted false s).handles =
        s.handles.map (fun p => (p.1, { p.2 with status := resumeStatus p.2.status }))) ∧
    (∀ st : HandleStatus, st ≠ HandleStatus.stopped → pauseStatus st ≠ HandleStatus.stopped) := by
  refine ⟨fun hm => by simp [playSound, hm], by simp [setMuted], by simp [setMuted], ?_⟩
  intro st hst
  cases st with
  | playing => simp [pauseStatus]
  | paused => simp [pauseStatus]
  | stopped => exact absurd rfl hst

/-- C7 at a concrete muted registry: the `playSound` call is a pure no-op. -/
theorem c7_mute_pause_witness :
    playSound "click" {} { demoUI with isMuted := true } =
      (none, { demoUI with isMuted := true }) :=
  (c7_mute_pause { demoUI with isMuted := true } "click" {}).1 rfl

/-! ## C3: the exact no-op cases of playSound -/

/-- The five no-op conditions the spec lists for `playSound`. -/
def playSoundNoOp (s : SMState) (key : String) : Prop :=
  s.isMuted = true ∨
  lookupA s.sounds key = none ∨
  (∃ e, lookupA s.sounds key = some e ∧ lookupA s.categories e.category = none) ∨
  (∃ e c, lookupA s.sounds key = some e ∧ lookupA s.categories e.category = some c ∧
    key ∉ s.audioKeys) ∨
  (∃ e c, lookupA s.sounds key = some e ∧ lookupA s.categories e.category = some c ∧
    c.maxConcurrent ≤ c.playingSounds.length ∧ c.interrupts = false)

theorem lookupA_updateA_isSome {κ α : Type} [DecidableEq κ] (l : List (κ × α))
    (k k' : κ) (f : α → α) :
    (lookupA (updateA l k f) k').isSome = (lookupA l k').isSome := by
  by_cases h : k' = k
  · subst h
    rw [lookupA_updateA_self]
    cases lookupA l k' <;> rfl
  · rw [lookupA_updateA_ne _ _ _ _ h]

/-- `stopHandle` never creates or removes a category entry. -/
theorem stopHandle_categories_isSome (h : Handle) (s : SMState) (k : String) :
    (lookupA (stopHandle h s).categories k).isSome = (lookupA s.categories k).isSome := by
  unfold stopHandle
  split
  · split
    · exact lookupA_updateA_isSome _ _ _ _
    · rfl
  · rfl

/-- `evictOldest` never creates or removes a category entry. -/
theorem evictOldest_categories_isSome (catName : String) (cat : SoundCategory)
    (s : SMState) (k : String) :
    (lookupA (evictOldest catName cat s).categories k).isSome =
      (lookupA s.categories k).isSome := by
  unfold evictOldest
  cases cat.playingSounds with
  | nil => rfl
  | cons oldest rest =>
    rw [stopHandle_categories_isSome]
    exact lookupA_updateA_isSome _ _ _ _

/-- When the category is present, the add path always produces the fresh
handle. -/
theorem playSoundAdd_fst (key : String) (config : PlayConfig) (entry : SoundEntry)
    (s : SMState) (h : (lookupA s.categories entry.category).isSome) :
    (playSoundAdd key config entry s).1 = some s.nextHandle := by
  unfold playSoundAdd
  cases hc : lookupA s.categories entry.category with
  | none => rw [hc] at h; simp at h
  | some cat => rfl

/-- C3: `playSound` returns the no-op signal `null` (never an exception) if
and only if one of the five listed conditions holds — globally muted, key
unregistered, category missing, key not in the host audio cache, or category
full with `interrupts = false` — and in every such case the whole state, in
particular every category's `playingSounds` list, is left unchanged. -/
theorem c3_playSound_noop (s : SMState) (key : String) (config : PlayConfig) :
    ((playSound key config s).1 = none ↔ playSoundNoOp s key) ∧
    ((playSound key config s).1 = none → (playSound key config s).2 = s) := by
  by_cases hm : s.isMuted = true
  · refine ⟨iff_of_true (by simp [playSound, hm]) (Or.inl hm), fun _ => by simp [playSound, hm]⟩
  · have hm' : s.isMuted = false := by simpa using hm
    cases hs : lookupA s.sounds key with
    | none =>
      refine ⟨iff_of_true (by simp [playSound, hm', hs]) (Or.inr (Or.inl hs)),
        fun _ => by simp [playSound, hm', hs]⟩
    | some e =>
      cases hc : lookupA s.categories e.category with
      | none =>
        refine ⟨iff_of_true (by simp [playSound, hm', hs, hc])
          (Or.inr (Or.inr (Or.inl ⟨e, hs, hc⟩))), fun _ => by simp [playSound, hm', hs, hc]⟩
      | some cat =>
        by_cases hk : key ∈ s.audioKeys
        · by_cases hfull : cat.maxConcurrent ≤ cat.playingSounds.length
          · by_cases hint : cat.interrupts = true
            · -- full and interrupting: the call produces a handle
              have hsome : (playSound key config s).1 =
                  some (evictOldest e.category cat s).nextHandle := by
                simp only [playSound, hm', hs, hc]
                rw [if_pos hk, if_pos hfull, if_pos hint]
                refine playSoundAdd_fst _ _ _ _ ?_
                rw [evictOldest_categories_isSome, hc]
                rfl
              have hnot : ¬ playSoundNoOp s key := by
                rintro (h | h | ⟨e', he', hce'⟩ | ⟨e', c', he', hce', hmem⟩ |
                  ⟨e', c', he', hce', _, hint'⟩)
                · exact hm h
                · rw [hs] at h; exact Option.noConfusion h
                · rw [hs] at he'
                  cases he'
                  rw [hc] at hce'; exact Option.noConfusion hce'
                · rw [hs] at he'
                  cases he'
                  exact hmem hk
                · rw [hs] at he'
                  cases he'
                  rw [hc] at hce'
                  cases hce'
                  rw [hint] at hint'; exact Bool.noConfusion hint'
              exact ⟨iff_of_false (by simp [hsome]) hnot,
                fun habs => absurd (hsome ▸ habs) (by simp)⟩
            · -- full without interrupts: refuse, state untouched
              have hint' : cat.interrupts = false := by simpa using hint
              refine ⟨iff_of_true (by simp [playSound, hm', hs, hc, hk, hfull, hint'])
                (Or.inr (Or.inr (Or.inr (Or.inr ⟨e, cat, hs, hc, hfull, hint'⟩)))),
                fun _ => by simp [playSound, hm', hs, hc, hk, hfull, hint']⟩
          · -- free slot: the call produces a handle
            have hsome : (playSound key config s).1 = some s.nextHandle := by
              simp only [playSound, hm', hs, hc]
              rw [if_pos hk, if_neg hfull]
              refine playSoundAdd_fst _ _ _ _ ?_
              rw [hc]; rfl
            have hnot : ¬ playSoundNoOp s key := by
              rintro (h | h | ⟨e', he', hce'⟩ | ⟨e', c', he', hce', hmem⟩ |
                ⟨e', c', he', hce', hfull', _⟩)
              · exact hm h
              · rw [hs] at h; exact Option.noConfusion h
              · rw [hs] at he'
                cases he'
                rw [hc] at hce'; exact Option.noConfusion hce'
              · rw [hs] at he'
                cases he'
                exact hmem hk
              · rw [hs] at he'
                cases he'
                rw [hc] at hce'
                cases hce'
                exact hfull hfull'
            exact ⟨iff_of_false (by simp [hsome]) hnot,
              fun habs => absurd (hsome ▸ habs) (by simp)⟩
        · -- not in the audio cache
          refine ⟨iff_of_true (by simp [playSound, hm', hs, hc, hk])
            (Or.inr (Or.inr (Or.inr (Or.inl ⟨e, cat, hs, hc, hk⟩)))),
            fun _ => by simp [playSound, hm', hs, hc, hk]⟩

/-- C3 at a concrete input: an unregistered key is a no-op that keeps the
state unchanged. -/
theorem c3_playSound_noop_witness :
    (playSound "missing" {} demoUI).1 = none ∧ (playSound "missing" {} demoUI).2 = demoUI := by
  have h := c3_playSound_noop demoUI "missing" {}
  have hnone : (playSound "missing" {} demoUI).1 = none :=
    h.1.mpr (Or.inr (Or.inl (by simp [demoUI, lookupA])))
  exact ⟨hnone, h.2 hnone⟩

/-! ## C2: interrupt eviction in a full category -/

theorem stopHandle_handles (h : Handle) (s : SMState) :
    (stopHandle h s).handles = updateA s.handles h
      (fun st => { st with status := HandleStatus.stopped, onStopCat := none }) := by
  unfold stopHandle
  split
  · split <;> rfl
  · rfl

theorem stopHandle_nextHandle (h : Handle) (s : SMState) :
    (stopHandle h s).nextHandle = s.nextHandle := by
  unfold stopHandle
  split
  · split <;> rfl
  · rfl

theorem stopHandle_globalVolume (h : Handle) (s : SMState) :
    (stopHandle h s).globalVolume = s.globalVolume := by
  unfold stopHandle
  split
  · split <;> rfl
  · rfl

/-- What `stopHandle` can do to one category: nothing, or erase the stopped
handle from its list. -/
theorem stopHandle_categories_lookup (h : Handle) (s : SMState) (k : String) :
    lookupA (stopHandle h s).categories k = lookupA s.categories k ∨
    lookupA (stopHandle h s).categories k =
      (lookupA s.categories k).map
        (fun c => { c with playingSounds := c.playingSounds.erase h }) := by
  rcases hh : lookupA s.handles h with _ | st
  · left; simp [stopHandle, hh]
  · rcases hoc : st.onStopCat with _ | catName
    · left; simp [stopHandle, hh, hoc]
    · by_cases hk : k = catName
      · subst hk
        right
        simp [stopHandle, hh, hoc, lookupA_updateA_self]
      · left
        simp [stopHandle, hh, hoc, lookupA_updateA_ne _ _ _ _ hk]

/-- C2: in a full category with `interrupts = true`, `playSound` on a
registered, loaded key (registry unmuted) evicts exactly the oldest handle —
the head of `playingSounds` is stopped, every other pre-existing handle is
untouched — plays the new sound, and leaves the list's length equal to
`maxConcurrent` (one evicted, one appended at the tail). -/
theorem c2_interrupt_eviction (s : SMState) (key : String) (config : PlayConfig)
    (e : SoundEntry) (c : SoundCategory) (oldest : Handle) (rest : List Handle)
    (hm : s.isMuted = false)
    (hs : lookupA s.sounds key = some e)
    (hc : lookupA s.categories e.category = some c)
    (hk : key ∈ s.audioKeys)
    (hps : c.playingSounds = oldest :: rest)
    (hlen : c.playingSounds.length = c.maxConcurrent)
    (hint : c.interrupts = true)
    (hnd : oldest ∉ rest)
    (hfresh : oldest ≠ s.nextHandle)
    (hfresh2 : lookupA s.handles s.nextHandle = none) :
    (playSound key config s).1 = some s.nextHandle ∧
    lookupA (playSound key config s).2.categories e.category =
      some { c with playingSounds := rest ++ [s.nextHandle] } ∧
    (rest ++ [s.nextHandle]).length = c.maxConcurrent ∧
    (∀ st, lookupA s.handles oldest = some st →
      lookupA (playSound key config s).2.handles oldest =
        some { st with status := HandleStatus.stopped, onStopCat := none }) ∧
    (∃ stN, lookupA (playSound key config s).2.handles s.nextHandle = some stN ∧
      stN.status = HandleStatus.playing ∧ stN.onStopCat = some e.category) := by
  have hfull : c.maxConcurrent ≤ c.playingSounds.length := le_of_eq hlen.symm
  have hred : playSound key config s =
      playSoundAdd key config e (evictOldest e.category c s) := by
    simp [playSound, hm, hs, hc, hk, hfull, hint]
  have hevict : evictOldest e.category c s = stopHandle oldest
      { s with categories := (updateA s.categories e.category
          (fun cc => { cc with playingSounds := cc.playingSounds.tail })) } := by
    simp [evictOldest, hps]
  set s1 : SMState := { s with categories := (updateA s.categories e.category
      (fun cc => { cc with playingSounds := cc.playingSounds.tail })) } with hs1def
  set s2 : SMState := stopHandle oldest s1 with hs2def
  have hcat1 : lookupA s1.categories e.category = some { c with playingSounds := rest } := by
    show lookupA (updateA s.categories e.category _) e.category = _
    rw [lookupA_updateA_self, hc]
    simp [hps]
  have hcatEv : lookupA s2.categories e.category = some { c with playingSounds := rest } := by
    rcases stopHandle_categories_lookup oldest s1 e.category with h' | h'
    · rw [hs2def, h', hcat1]
    · rw [hs2def, h', hcat1]
      simp [List.erase_of_not_mem hnd]
  have hnext2 : s2.nextHandle = s.nextHandle := by
    rw [hs2def, stopHandle_nextHandle]
  have hhandles2 : s2.handles = updateA s.handles oldest
      (fun st => { st with status := HandleStatus.stopped, onStopCat := none }) := by
    rw [hs2def, stopHandle_handles]
  have hfst : (playSoundAdd key config e s2).1 = some s2.nextHandle :=
    playSoundAdd_fst _ _ _ _ (by rw [hcatEv]; rfl)
  have hcats : (playSoundAdd key config e s2).2.categories =
      updateA s2.categories e.category
        (fun cc => { cc with playingSounds := cc.playingSounds ++ [s2.nextHandle] }) := by
    simp only [playSoundAdd, hcatEv]
  have hhand : ∃ vol, (playSoundAdd key config e s2).2.handles =
      s2.handles ++ [(s2.nextHandle,
        ⟨vol, HandleStatus.playing, some e.category⟩)] := by
    simp only [playSoundAdd, hcatEv]
    exact ⟨_, rfl⟩
  obtain ⟨vol, hhand⟩ := hhand
  rw [hred, hevict]
  refine ⟨by rw [hfst, hnext2], ?_, ?_, ?_, ?_⟩
  · rw [hcats, lookupA_updateA_self, hcatEv, hnext2]
    rfl
  · rw [hps] at hlen
    simpa using hlen
  · intro st hst
    rw [hhand, lookupA_append, hhandles2, lookupA_updateA_self, hst]
    rfl
  · refine ⟨⟨vol, HandleStatus.playing, some e.category⟩, ?_, rfl, rfl⟩
    rw [hhand, lookupA_append, hhandles2,
      lookupA_updateA_ne _ _ _ _ (Ne.symm hfresh), hfresh2, hnext2]
    simp [lookupA]

/-- A full interrupting category: "voice" with `maxConcurrent = 1`, handle 0
active, two registered and loaded keys. -/
def demoVoice : SMState :=
  { sounds := [("va", ⟨"va", "voice", ["va.mp3"], {}, false⟩),
               ("vb", ⟨"vb", "voice", ["vb.mp3"], {}, false⟩)]
    categories := [("voice", ⟨"voice", 1, false, 1, true, none, none, [0]⟩)]
    currentBGM := none, bgmSound := none, globalVolume := 1, isMuted := false
    fadeTweens := [], audioKeys := ["va", "vb"]
    handles := [(0, ⟨1, HandleStatus.playing, some "voice"⟩)]
    nextHandle := 1, pendingFades := [] }

/-- C2 at a concrete input: playing `"vb"` into the full "voice" category
evicts handle 0 and tracks the new handle 1, keeping the list at capacity. -/
theorem c2_interrupt_eviction_witness :
    (playSound "vb" {} demoVoice).1 = some 1 ∧
    lookupA (playSound "vb" {} demoVoice).2.categories "voice" =
      some ⟨"voice", 1, false, 1, true, none, none, [1]⟩ := by
  have h := c2_interrupt_eviction demoVoice "vb" {}
    ⟨"vb", "voice", ["vb.mp3"], {}, false⟩
    ⟨"voice", 1, false, 1, true, none, none, [0]⟩ 0 []
    rfl
    (by simp [demoVoice, lookupA])
    (by simp [demoVoice, lookupA])
    (by simp [demoVoice])
    rfl rfl rfl
    (by simp)
    (by decide)
    (by simp [demoVoice, lookupA])
  exact ⟨by simpa using h.1, by simpa using h.2.1⟩

/-! ## C4: playBGM("a") then playBGM("b") with a fading BGM category

`stopBGM`'s fade-out completion callback was created before `"b"` became the
current BGM, but it clears `currentBGM`/`bgmSound` unconditionally when the
tween finishes.  So `"b"` is the current BGM only until `"a"`'s fade-out
completes; afterwards the registry reports no BGM at all. -/

/-- The scenario's registry: category `"bgm"` defined with `maxConcurrent=1,
interrupts=true, fadeOutDuration=1000`, keys `"a"` and `"b"` registered under
it and present in the host audio cache. -/
def c4state : SMState :=
  { (registerSound "b" "bgm" ["b.mp3"] none
      (registerSound "a" "bgm" ["a.mp3"] none
        (defineCategory "bgm"
          { maxConcurrent := some 1, interrupts := some true, fadeOutDuration := some 1000 }
          emptySM)))
    with audioKeys := ["a", "b"] }

/-- After `playBGM("a")` then `playBGM("b")`. -/
def c4afterB : SMState := playBGM "b" {} (playBGM "a" {} c4state)

/-- ... and after `"a"`'s fade-out tween completes. -/
def c4afterFade : SMState := fireFadeOutComplete c4afterB

/-- C4, counterexample to the claim as stated: after the fade-out completes,
`getCurrentBGM()` does not return `"b"` — the stale `stopBGM` callback has
cleared the BGM record. -/
theorem c4_counterexample :
    getCurrentBGM c4afterFade = none ∧ getCurrentBGM c4afterFade ≠ some "b" := by
  constructor
  · rfl
  · intro h
    exact Option.noConfusion ((rfl : getCurrentBGM c4afterFade = none) ▸ h)

/-- C4, amended: immediately after the second call, `"a"`'s handle has been
stopped (with its fade-out still pending) and `"b"` is recorded as current
BGM with its handle stored; but when the fade-out completes, the deferred
`stopBGM` callback clears the BGM record, so `getCurrentBGM()` returns the
no-BGM value `null` rather than `"b"`. -/
theorem c4_amended :
    getCurrentBGM c4afterB = some "b" ∧
    c4afterB.bgmSound = some 1 ∧
    (lookupA c4afterB.handles 0).map HandleState.status = some HandleStatus.stopped ∧
    c4afterB.pendingFades = [⟨0, 1000, true⟩] ∧
    getCurrentBGM c4afterFade = none ∧
    c4afterFade.bgmSound = none := by
  refine ⟨rfl, rfl, rfl, ?_, rfl, rfl⟩
  decide

/-! ## C1: playingSounds never exceeds maxConcurrent -/

/-- The concurrency bound of one category, for categories with a positive
`maxConcurrent` (the claim's premise). -/
def InvCat (c : SoundCategory) : Prop :=
  0 < c.maxConcurrent → c.playingSounds.length ≤ c.maxConcurrent

instance (c : SoundCategory) : Decidable (InvCat c) := by
  unfold InvCat
  infer_instance

/-- The concurrency invariant over the whole registry. -/
def RegistryInv (s : SMState) : Prop := ∀ p ∈ s.categories, InvCat p.2

instance (s : SMState) : Decidable (RegistryInv s) := by
  unfold RegistryInv
  infer_instance

theorem invCat_erase (h : Handle) (c : SoundCategory) (hc : InvCat c) :
    InvCat { c with playingSounds := c.playingSounds.erase h } := by
  intro hpos
  exact le_trans (List.Sublist.length_le (List.erase_sublist h c.playingSounds)) (hc hpos)

theorem invCat_tail (c : SoundCategory) (hc : InvCat c) :
    InvCat { c with playingSounds := c.playingSounds.tail } := by
  intro hpos
  have h1 := hc hpos
  simp only [List.length_tail]
  omega

theorem invCat_clear (c : SoundCategory) :
    InvCat { c with playingSounds := [] } := fun _ => by simp

theorem invList_updateA (cats : List (String × SoundCategory)) (k : String)
    (f : SoundCategory → SoundCategory) (hf : ∀ c, InvCat c → InvCat (f c))
    (h : ∀ p ∈ cats, InvCat p.2) : ∀ p ∈ updateA cats k f, InvCat p.2 := by
  intro p hp
  rcases mem_updateA hp with h' | ⟨c, hcl, rfl⟩
  · exact h p h'
  · exact hf c (h (k, c) (lookupA_mem hcl))

theorem inv_defineCategory (name : String) (config : SoundCategoryConfig) (s : SMState)
    (hinv : RegistryInv s) : RegistryInv (defineCategory name config s) := by
  intro p hp
  rcases mem_setAssoc hp with hq | h'
  · rw [hq]
    intro _
    simp
  · exact hinv p h'

theorem inv_registerSound (key category : String) (path : List String)
    (config : Option SoundConfig) (s : SMState) (hinv : RegistryInv s) :
    RegistryInv (registerSound key category path config s) := by
  by_cases h : (lookupA s.categories category).isSome
  · simp only [registerSound, h, if_true]
    exact hinv
  · have h' : (lookupA s.categories category).isSome = false := by simpa using h
    simp only [registerSound, h', Bool.false_eq_true, if_false]
    exact inv_defineCategory category emptyCatConfig s hinv

theorem inv_stopHandle (h : Handle) (s : SMState) (hinv : RegistryInv s) : RegistryInv (stopHandle h s) := by
  rcases hh : lookupA s.handles h with _ | st
  · simp only [stopHandle, hh]
    exact hinv
  · rcases hoc : st.onStopCat with _ | catName
    · simp only [stopHandle, hh, hoc]
      exact hinv
    · simp only [stopHandle, hh, hoc]
      exact invList_updateA _ _ _ (invCat_erase h) hinv

/-- The handle-adding tail of `playSound` keeps the invariant provided the
target category (if present) has a free slot below its positive bound. -/
theorem inv_playSoundAdd (key : String) (config : PlayConfig) (entry : SoundEntry)
    (s : SMState) (hinv : RegistryInv s)
    (hlt : ∀ cat, lookupA s.categories entry.category = some cat →
      0 < cat.maxConcurrent → cat.playingSounds.length < cat.maxConcurrent) :
    RegistryInv (playSoundAdd key config entry s).2 := by
  cases hc : lookupA s.categories entry.category with
  | none =>
    simp only [playSoundAdd, hc]
    exact hinv
  | some cat =>
    simp only [playSoundAdd, hc]
    intro p hp
    rcases mem_updateA hp with h' | ⟨c, hcl, rfl⟩
    · exact hinv p h'
    · rw [hc] at hcl
      cases hcl
      intro hpos
      have := hlt cat hc hpos
      simp only [List.length_append, List.length_cons, List.length_nil]
      omega

/-- `evictOldest` keeps the invariant. -/
theorem inv_evictOldest (catName : String) (cat : SoundCategory) (s : SMState)
    (hinv : RegistryInv s) : RegistryInv (evictOldest catName cat s) := by
  unfold evictOldest
  cases cat.playingSounds with
  | nil => exact hinv
  | cons oldest rest =>
    exact inv_stopHandle oldest _ (invList_updateA _ _ _ invCat_tail hinv)


/-- After a full category is evicted, its slot count is strictly below the
(positive) bound again. -/
theorem evictOldest_lookup_lt (catName : String) (cat : SoundCategory) (s : SMState)
    (hinv : RegistryInv s) (hc : lookupA s.categories catName = some cat)
    (hfull : cat.maxConcurrent ≤ cat.playingSounds.length) :
    ∀ cat', lookupA (evictOldest catName cat s).categories catName = some cat' →
      0 < cat'.maxConcurrent → cat'.playingSounds.length < cat'.maxConcurrent := by
  intro cat' hc' hpos
  cases hps : cat.playingSounds with
  | nil =>
    unfold evictOldest at hc'
    rw [hps] at hc'
    rw [hc] at hc'
    cases hc'
    rw [hps] at hfull
    simp only [List.length_nil, Nat.le_zero] at hfull
    rw [hfull] at hpos
    exact absurd hpos (by simp)
  | cons oldest rest =>
    unfold evictOldest at hc'
    rw [hps] at hc'
    have hcat1 : lookupA (updateA s.categories catName
        (fun cc => { cc with playingSounds := cc.playingSounds.tail })) catName =
        some { cat with playingSounds := rest } := by
      rw [lookupA_updateA_self, hc]
      simp [hps]
    rcases stopHandle_categories_lookup oldest
        { s with categories := (updateA s.categories catName
          (fun cc => { cc with playingSounds := cc.playingSounds.tail })) } catName
      with hA | hB
    · rw [hA] at hc'
      rw [hcat1] at hc'
      cases hc'
      have hbound := hinv (catName, cat) (lookupA_mem hc) hpos
      rw [hps] at hbound
      simp only [List.length_cons] at hbound
      show rest.length < cat.maxConcurrent
      omega
    · rw [hB] at hc'
      rw [hcat1] at hc'
      simp only [Option.map_some'] at hc'
      cases hc'
      have hbound := hinv (catName, cat) (lookupA_mem hc) hpos
      rw [hps] at hbound
      simp only [List.length_cons] at hbound
      have herase : (rest.erase oldest).length ≤ rest.length :=
        List.Sublist.length_le (List.erase_sublist oldest rest)
      show (rest.erase oldest).length < cat.maxConcurrent
      omega

/-- `playSound` keeps the invariant. -/
theorem inv_playSound (key : String) (config : PlayConfig) (s : SMState)
    (hinv : RegistryInv s) : RegistryInv (playSound key config s).2 := by
  unfold playSound
  split
  · exact hinv
  · split
    · exact hinv
    · next entry hs =>
      split
      · exact hinv
      · next cat hc =>
        split
        · split
          · next hfull =>
            split
            · refine inv_playSoundAdd _ _ _ _ (inv_evictOldest _ _ _ hinv) ?_
              exact evictOldest_lookup_lt entry.category cat s hinv hc hfull
            · exact hinv
          · next hfull =>
            refine inv_playSoundAdd _ _ _ _ hinv ?_
            intro cat' hc' _
            rw [hc] at hc'
            cases hc'
            omega
        · exact hinv

/-- `stopBGM` keeps the invariant. -/
theorem inv_stopBGM (s : SMState) (hinv : RegistryInv s) : RegistryInv (stopBGM s) := by
  unfold stopBGM
  split
  · split
    · split
      · exact hinv
      · exact inv_stopHandle _ _ hinv
    · exact inv_stopHandle _ _ hinv
  · exact hinv

/-- `playBGM` keeps the invariant. -/
theorem inv_playBGM (key : String) (config : PlayConfig) (s : SMState)
    (hinv : RegistryInv s) : RegistryInv (playBGM key config s) := by
  unfold playBGM
  have h1 := inv_playSound key config (stopBGM s) (inv_stopBGM s hinv)
  split
  · next h s2 heq =>
    rw [heq] at h1
    exact h1
  · next s2 heq =>
    rw [heq] at h1
    exact h1

/-- `stopCategory` keeps the invariant. -/
theorem inv_stopCategory (name : String) (s : SMState) (hinv : RegistryInv s) :
    RegistryInv (stopCategory name s) := by
  unfold stopCategory
  cases hc : lookupA s.categories name with
  | none => exact hinv
  | some cat =>
    have hfold : ∀ (l : List Handle) (t : SMState), RegistryInv t →
        RegistryInv (l.foldl (fun acc h => stopHandle h acc) t) := by
      intro l
      induction l with
      | nil => intro t ht; exact ht
      | cons x xs ih =>
        intro t ht
        exact ih _ (inv_stopHandle x t ht)
    exact invList_updateA _ _ _ (fun c _ => invCat_clear c) (hfold _ _ hinv)

/-- `stopAll` keeps the invariant. -/
theorem inv_stopAll (s : SMState) (_hinv : RegistryInv s) : RegistryInv (stopAll s) := by
  intro p hp
  simp only [stopAll, List.mem_map] at hp
  obtain ⟨q, _, rfl⟩ := hp
  exact invCat_clear q.2

/-- `setCategoryVolume` keeps the invariant (it only rewrites volumes). -/
theorem inv_setCategoryVolume (name : String) (v : ℚ) (s : SMState) (hinv : RegistryInv s) :
    RegistryInv (setCategoryVolume name v s) := by
  unfold setCategoryVolume
  cases lookupA s.categories name with
  | none => exact hinv
  | some cat =>
    exact invList_updateA _ _ _ (fun c hc hpos => hc hpos) hinv

/-- `setGlobalVolume` keeps the invariant (categories untouched). -/
theorem inv_setGlobalVolume (v : ℚ) (s : SMState) (hinv : RegistryInv s) :
    RegistryInv (setGlobalVolume v s) := hinv

/-- `setMuted` keeps the invariant (categories untouched). -/
theorem inv_setMuted (m : Bool) (s : SMState) (hinv : RegistryInv s) : RegistryInv (setMuted m s) := by
  unfold setMuted
  split
  · exact hinv
  · exact hinv

/-- `loadSettings` keeps the invariant. -/
theorem inv_loadSettings (settings : SoundManagerSettings) (s : SMState) (hinv : RegistryInv s) :
    RegistryInv (loadSettings settings s) := by
  unfold loadSettings
  have hfold : ∀ (l : List (String × ℚ)) (t : SMState), RegistryInv t →
      RegistryInv (l.foldl (fun acc p => setCategoryVolume p.1 p.2 acc) t) := by
    intro l
    induction l with
    | nil => intro t ht; exact ht
    | cons p ps ih => intro t ht; exact ih _ (inv_setCategoryVolume p.1 p.2 t ht)
  exact hfold _ _ (inv_setMuted _ _ (inv_setGlobalVolume _ _ hinv))

/-- `fireFadeOutComplete` keeps the invariant. -/
theorem inv_fireFadeOutComplete (s : SMState) (hinv : RegistryInv s) :
    RegistryInv (fireFadeOutComplete s) := by
  unfold fireFadeOutComplete
  split
  · exact hinv
  · split
    · exact inv_stopHandle _ _ hinv
    · exact inv_stopHandle _ _ hinv

/-- Every single operation keeps the invariant. -/
theorem inv_stepOp (op : Op) (s : SMState) (hinv : RegistryInv s) : RegistryInv (stepOp op s) := by
  cases op with
  | defineCategory name config => exact inv_defineCategory name config s hinv
  | registerSound key category path config => exact inv_registerSound key category path config s hinv
  | playSound key config => exact inv_playSound key config s hinv
  | playBGM key config => exact inv_playBGM key config s hinv
  | stopBGM => exact inv_stopBGM s hinv
  | stopCategory name => exact inv_stopCategory name s hinv
  | stopAll => exact inv_stopAll s hinv
  | setCategoryVolume name v => exact inv_setCategoryVolume name v s hinv
  | setGlobalVolume v => exact inv_setGlobalVolume v s hinv
  | setMuted m => exact inv_setMuted m s hinv
  | toggleMute => exact inv_setMuted _ s hinv
  | loadSettings settings => exact inv_loadSettings settings s hinv
  | hostStop h => exact inv_stopHandle h s hinv
  | hostComplete h => exact inv_stopHandle h s hinv
  | hostFadeOutComplete => exact inv_fireFadeOutComplete s hinv

/-- C1: starting from any registry satisfying the bound (the constructor's
state does), after any sequence of registry operations — category definition,
registration, playback, BGM control, stops, volume/mute setters, settings
loads, and host completion/stop/fade callbacks — every category with a
positive `maxConcurrent` has `playingSounds.length ≤ maxConcurrent`; since
this holds after every prefix, it holds at every observable instant. -/
theorem c1_concurrency_invariant (ops : List Op) (s : SMState) (hinv : RegistryInv s) :
    RegistryInv (run ops s) := by
  induction ops generalizing s with
  | nil => exact hinv
  | cons op rest ih => exact ih (stepOp op s) (inv_stepOp op s hinv)

/-- C1 at concrete inputs: the constructor's registry satisfies the bound and
still does after a sample operation sequence (plays, an eviction, a stop, a
BGM switch and a mute). -/
theorem c1_concurrency_invariant_witness :
    RegistryInv demoVoice ∧
    RegistryInv (run [Op.playSound "vb" {}, Op.playSound "va" {}, Op.stopCategory "voice",
      Op.playBGM "vb" {}, Op.setMuted true, Op.setMuted false, Op.stopAll] demoVoice) ∧
    RegistryInv initSM :=
  ⟨by decide,
   c1_concurrency_invariant _ demoVoice (by decide),
   by decide⟩

/-! ## C5: settings round trip -/

/-- The effect of one `setCategoryVolume` on the categories map alone. -/
def applyVolStep (cs : List (String × SoundCategory)) (p : String × ℚ) :
    List (String × SoundCategory) :=
  match lookupA cs p.1 with
  | none => cs
  | some _ => updateA cs p.1 (fun c => { c with volume := clampQ p.2 })

theorem setCategoryVolume_categories (name : String) (v : ℚ) (s : SMState) :
    (setCategoryVolume name v s).categories = applyVolStep s.categories (name, v) := by
  cases h : lookupA s.categories name with
  | none => simp [setCategoryVolume, applyVolStep, h]
  | some cat => simp [setCategoryVolume, applyVolStep, h]

theorem setCategoryVolume_globalVolume (name : String) (v : ℚ) (s : SMState) :
    (setCategoryVolume name v s).globalVolume = s.globalVolume := by
  unfold setCategoryVolume
  split <;> rfl

theorem setCategoryVolume_isMuted (name : String) (v : ℚ) (s : SMState) :
    (setCategoryVolume name v s).isMuted = s.isMuted := by
  unfold setCategoryVolume
  split <;> rfl

theorem setMuted_categories (m : Bool) (s : SMState) :
    (setMuted m s).categories = s.categories := by
  unfold setMuted
  split <;> rfl

theorem setMuted_globalVolume (m : Bool) (s : SMState) :
    (setMuted m s).globalVolume = s.globalVolume := by
  unfold setMuted
  split <;> rfl

theorem setMuted_isMuted (m : Bool) (s : SMState) : (setMuted m s).isMuted = m := by
  unfold setMuted
  split <;> rfl

theorem setGlobalVolume_categories (v : ℚ) (s : SMState) :
    (setGlobalVolume v s).categories = s.categories := rfl

theorem setGlobalVolume_globalVolume (v : ℚ) (s : SMState) :
    (setGlobalVolume v s).globalVolume = clampQ v := rfl

theorem setGlobalVolume_isMuted (v : ℚ) (s : SMState) :
    (setGlobalVolume v s).isMuted = s.isMuted := rfl

theorem foldSetCat_categories (pairs : List (String × ℚ)) (t : SMState) :
    (pairs.foldl (fun acc p => setCategoryVolume p.1 p.2 acc) t).categories =
      pairs.foldl applyVolStep t.categories := by
  induction pairs generalizing t with
  | nil => rfl
  | cons p ps ih =>
    simp only [List.foldl_cons]
    rw [ih, setCategoryVolume_categories]

theorem foldSetCat_globalVolume (pairs : List (String × ℚ)) (t : SMState) :
    (pairs.foldl (fun acc p => setCategoryVolume p.1 p.2 acc) t).globalVolume =
      t.globalVolume := by
  induction pairs generalizing t with
  | nil => rfl
  | cons p ps ih =>
    simp only [List.foldl_cons]
    rw [ih, setCategoryVolume_globalVolume]

theorem foldSetCat_isMuted (pairs : List (String × ℚ)) (t : SMState) :
    (pairs.foldl (fun acc p => setCategoryVolume p.1 p.2 acc) t).isMuted = t.isMuted := by
  induction pairs generalizing t with
  | nil => rfl
  | cons p ps ih =>
    simp only [List.foldl_cons]
    rw [ih, setCategoryVolume_isMuted]

/-- Later volume updates pass over an entry none of them names. -/
theorem applyVolStep_cons_skip (ps : List (String × ℚ)) (q : String × SoundCategory)
    (cs' : List (String × SoundCategory)) (h : ∀ r ∈ ps, r.1 ≠ q.1) :
    ps.foldl applyVolStep (q :: cs') = q :: ps.foldl applyVolStep cs' := by
  induction ps generalizing cs' with
  | nil => rfl
  | cons r rs ih =>
    have hr : r.1 ≠ q.1 := h r (List.mem_cons_self r rs)
    have hq : ¬ q.1 = r.1 := fun he => hr he.symm
    have hstep : applyVolStep (q :: cs') r = q :: applyVolStep cs' r := by
      unfold applyVolStep
      simp only [lookupA, hq, if_neg, not_false_iff]
      cases hl : lookupA cs' r.1 with
      | none => rfl
      | some c =>
        simp only [updateA, hq, if_neg, not_false_iff]
    simp only [List.foldl_cons, hstep]
    exact ih _ (fun x hx => h x (List.mem_cons_of_mem r hx))

/-- Folding the saved per-category volumes over a registry with the same
category names (in order, no duplicates) rewrites each stored volume to the
clamp of the saved one. -/
theorem foldVolList (pairs : List (String × ℚ)) (cs : List (String × SoundCategory))
    (hfst : cs.map Prod.fst = pairs.map Prod.fst)
    (hnd : (pairs.map Prod.fst).Nodup) :
    (pairs.foldl applyVolStep cs).map (fun p => (p.1, p.2.volume)) =
      pairs.map (fun p => (p.1, clampQ p.2)) := by
  induction pairs generalizing cs with
  | nil =>
    have : cs = [] := List.map_eq_nil_iff.mp hfst
    rw [this]
    rfl
  | cons p ps ih =>
    cases cs with
    | nil => simp at hfst
    | cons q cs' =>
      simp only [List.map_cons, List.cons.injEq] at hfst
      obtain ⟨h1, h2⟩ := hfst
      have hstep : applyVolStep (q :: cs') p =
          (q.1, { q.2 with volume := clampQ p.2 }) :: cs' := by
        unfold applyVolStep
        simp [lookupA, updateA, h1]
      simp only [List.map_cons, List.nodup_cons] at hnd
      have hnotin : ∀ r ∈ ps, r.1 ≠ q.1 := by
        intro r hr he
        have hmem : r.1 ∈ ps.map Prod.fst := List.mem_map_of_mem Prod.fst hr
        rw [he, h1] at hmem
        exact hnd.1 hmem
      rw [List.foldl_cons, hstep,
        applyVolStep_cons_skip ps (q.1, { q.2 with volume := clampQ p.2 }) cs' hnotin]
      simp only [List.map_cons]
      rw [ih cs' h2 hnd.2, h1]

/-- A registry whose "x" category was defined with the out-of-range volume 2
(`defineCategory` stores it unclamped). -/
def c5bad : SMState := defineCategory "x" { volume := some 2 } emptySM

/-- A fresh registry with the same single category name "x". -/
def c5fresh : SMState := defineCategory "x" emptyCatConfig emptySM

/-- C5, counterexample to the claim as stated ("for every registry state"):
for the reachable state whose "x" volume is 2, the round trip through a fresh
registry with the same category names clamps the volume to 1, so the
re-saved settings differ from the original save. -/
theorem c5_counterexample :
    saveSettings (loadSettings (saveSettings c5bad) c5fresh) ≠ saveSettings c5bad := by
  intro h
  have h2 := congrArg SoundManagerSettings.categoryVolumes h
  norm_num [c5bad, c5fresh, saveSettings, loadSettings, setCategoryVolume, setGlobalVolume,
    setMuted, setHandleVolume, clampQ, defineCategory, emptySM, emptyCatConfig, setAssoc,
    lookupA, updateA] at h2

/-- C5, amended: `loadSettings(saveSettings())` into a fresh registry with the
same category names (in definition order, no duplicate names) reproduces the
identical global volume, mute flag and per-category volumes — provided the
saved state's stored volumes already lie in `[0,1]` (every volume that went
through the clamping setters does; a `defineCategory` volume outside `[0,1]`
is stored unclamped and breaks the round trip, see the counterexample). -/
theorem c5_roundTrip (s t : SMState)
    (hg0 : 0 ≤ s.globalVolume) (hg1 : s.globalVolume ≤ 1)
    (hv : ∀ p ∈ s.categories, 0 ≤ p.2.volume ∧ p.2.volume ≤ 1)
    (hnames : t.categories.map Prod.fst = s.categories.map Prod.fst)
    (hnd : (s.categories.map Prod.fst).Nodup) :
    saveSettings (loadSettings (saveSettings s) t) = saveSettings s := by
  have hpairs_fst : (s.categories.map (fun p => (p.1, p.2.volume))).map Prod.fst =
      s.categories.map Prod.fst := by
    simp [List.map_map, Function.comp]
  unfold saveSettings loadSettings
  simp only [SoundManagerSettings.mk.injEq]
  refine ⟨?_, ?_, ?_⟩
  · rw [foldSetCat_globalVolume, setMuted_globalVolume, setGlobalVolume_globalVolume]
    exact clampQ_eq_self hg0 hg1
  · rw [foldSetCat_isMuted, setMuted_isMuted]
  · rw [foldSetCat_categories, setMuted_categories, setGlobalVolume_categories,
      foldVolList _ _ (by rw [hpairs_fst]; exact hnames) (by rw [hpairs_fst]; exact hnd)]
    rw [List.map_map]
    refine List.map_congr_left ?_
    intro q hq
    simp only [Function.comp]
    rw [clampQ_eq_self (hv q hq).1 (hv q hq).2]

/-- C5 at concrete inputs: the round trip on an in-range registry reproduces
the saved settings exactly. -/
theorem c5_roundTrip_witness :
    saveSettings (loadSettings (saveSettings demoUI) demoUI) = saveSettings demoUI :=
  c5_roundTrip demoUI demoUI (by norm_num [demoUI]) (by norm_num [demoUI])
    (by norm_num [demoUI]) rfl (by simp [demoUI])

/-! ## C8: stored volumes and the [0,1] range -/

/-- All stored category volumes lie in `[0,1]`. -/
def catVolsOk (cats : List (String × SoundCategory)) : Prop :=
  ∀ p ∈ cats, 0 ≤ p.2.volume ∧ p.2.volume ≤ 1

/-- The claim's property: stored global volume and every stored category
volume lie in `[0,1]`. -/
def volumesInRange (s : SMState) : Prop :=
  (0 ≤ s.globalVolume ∧ s.globalVolume ≤ 1) ∧ catVolsOk s.categories

/-- C8, counterexample to the claim as stated: `defineCategory` stores the
caller-supplied volume unclamped, so one operation on a fresh registry
already stores a category volume outside `[0,1]`. -/
theorem c8_counterexample :
    ¬ volumesInRange (defineCategory "x" { volume := some 2 } emptySM) := by
  intro h
  have hx := (h.2 ("x", ⟨"x", 2, false, 5, false, none, none, []⟩)
    (by simp [defineCategory, emptySM, setAssoc])).2
  norm_num at hx

/-- A `defineCategory` config whose volume (when supplied) is in `[0,1]`. -/
def configVolOk (config : SoundCategoryConfig) : Prop :=
  match config.volume with
  | none => True
  | some v => 0 ≤ v ∧ v ≤ 1

/-- An operation that cannot smuggle an out-of-range volume into the
registry: every operation except a `defineCategory` with an out-of-range
config volume. -/
def goodOp : Op → Prop
  | Op.defineCategory _ config => configVolOk config
  | _ => True

theorem catVolsOk_updateA (cs : List (String × SoundCategory)) (k : String)
    (f : SoundCategory → SoundCategory)
    (hf : ∀ c, (0 ≤ c.volume ∧ c.volume ≤ 1) → (0 ≤ (f c).volume ∧ (f c).volume ≤ 1))
    (h : catVolsOk cs) : catVolsOk (updateA cs k f) := by
  intro p hp
  rcases mem_updateA hp with h' | ⟨c, hcl, rfl⟩
  · exact h p h'
  · exact hf c (h (k, c) (lookupA_mem hcl))

theorem volOk_defineCategory (name : String) (config : SoundCategoryConfig) (s : SMState)
    (h : volumesInRange s) (hcfg : configVolOk config) :
    volumesInRange (defineCategory name config s) := by
  refine ⟨h.1, ?_⟩
  intro p hp
  rcases mem_setAssoc hp with hq | h'
  · rw [hq]
    cases hv : config.volume with
    | none => simp [hv]
    | some v =>
      unfold configVolOk at hcfg
      rw [hv] at hcfg
      simpa [hv] using hcfg
  · exact h.2 p h'

theorem volOk_registerSound (key category : String) (path : List String)
    (config : Option SoundConfig) (s : SMState) (h : volumesInRange s) :
    volumesInRange (registerSound key category path config s) := by
  by_cases hc : (lookupA s.categories category).isSome
  · simp only [registerSound, hc, if_true]
    exact h
  · have hc' : (lookupA s.categories category).isSome = false := by simpa using hc
    simp only [registerSound, hc', Bool.false_eq_true, if_false]
    exact volOk_defineCategory category emptyCatConfig s h trivial

theorem volOk_stopHandle (h : Handle) (s : SMState) (hv : volumesInRange s) :
    volumesInRange (stopHandle h s) := by
  refine ⟨by rw [stopHandle_globalVolume]; exact hv.1, ?_⟩
  rcases hh : lookupA s.handles h with _ | st
  · simp only [stopHandle, hh]
    exact hv.2
  · rcases hoc : st.onStopCat with _ | catName
    · simp only [stopHandle, hh, hoc]
      exact hv.2
    · simp only [stopHandle, hh, hoc]
      exact catVolsOk_updateA _ _ _ (fun c hc => hc) hv.2

theorem volOk_playSoundAdd (key : String) (config : PlayConfig) (entry : SoundEntry)
    (s : SMState) (hv : volumesInRange s) :
    volumesInRange (playSoundAdd key config entry s).2 := by
  cases hc : lookupA s.categories entry.category with
  | none =>
    simp only [playSoundAdd, hc]
    exact hv
  | some cat =>
    simp only [playSoundAdd, hc]
    exact ⟨hv.1, catVolsOk_updateA _ _ _ (fun c hb => hb) hv.2⟩

theorem volOk_evictOldest (catName : String) (cat : SoundCategory) (s : SMState)
    (hv : volumesInRange s) : volumesInRange (evictOldest catName cat s) := by
  unfold evictOldest
  cases cat.playingSounds with
  | nil => exact hv
  | cons oldest rest =>
    exact volOk_stopHandle oldest _ ⟨hv.1, catVolsOk_updateA _ _ _ (fun c hb => hb) hv.2⟩

theorem volOk_playSound (key : String) (config : PlayConfig) (s : SMState)
    (hv : volumesInRange s) : volumesInRange (playSound key config s).2 := by
  unfold playSound
  split
  · exact hv
  · split
    · exact hv
    · next entry hs =>
      split
      · exact hv
      · next cat hc =>
        split
        · split
          · split
            · exact volOk_playSoundAdd _ _ _ _ (volOk_evictOldest _ _ _ hv)
            · exact hv
          · exact volOk_playSoundAdd _ _ _ _ hv
        · exact hv

theorem volOk_stopBGM (s : SMState) (hv : volumesInRange s) :
    volumesInRange (stopBGM s) := by
  unfold stopBGM
  split
  · split
    · split
      · exact hv
      · exact volOk_stopHandle _ _ hv
    · exact volOk_stopHandle _ _ hv
  · exact hv

theorem volOk_playBGM (key : String) (config : PlayConfig) (s : SMState)
    (hv : volumesInRange s) : volumesInRange (playBGM key config s) := by
  unfold playBGM
  have h1 := volOk_playSound key config (stopBGM s) (volOk_stopBGM s hv)
  split
  · next h s2 heq =>
    rw [heq] at h1
    exact h1
  · next s2 heq =>
    rw [heq] at h1
    exact h1

theorem volOk_foldStop (l : List Handle) (t : SMState) (hv : volumesInRange t) :
    volumesInRange (l.foldl (fun acc h => stopHandle h acc) t) := by
  induction l generalizing t with
  | nil => exact hv
  | cons x xs ih => exact ih _ (volOk_stopHandle x t hv)

theorem volOk_stopCategory (name : String) (s : SMState) (hv : volumesInRange s) :
    volumesInRange (stopCategory name s) := by
  unfold stopCategory
  cases hc : lookupA s.categories name with
  | none => exact hv
  | some cat =>
    have hf := volOk_foldStop cat.playingSounds s hv
    exact ⟨hf.1, catVolsOk_updateA _ _ _ (fun c hb => hb) hf.2⟩

theorem volOk_stopAll (s : SMState) (hv : volumesInRange s) :
    volumesInRange (stopAll s) := by
  refine ⟨hv.1, ?_⟩
  intro p hp
  simp only [stopAll, List.mem_map] at hp
  obtain ⟨q, hq, rfl⟩ := hp
  exact hv.2 q hq

theorem volOk_setCategoryVolume (name : String) (v : ℚ) (s : SMState)
    (hv : volumesInRange s) : volumesInRange (setCategoryVolume name v s) := by
  refine ⟨by rw [setCategoryVolume_globalVolume]; exact hv.1, ?_⟩
  rw [setCategoryVolume_categories]
  unfold applyVolStep
  cases hl : lookupA s.categories name with
  | none => exact hv.2
  | some cat =>
    exact catVolsOk_updateA _ _ _ (fun c _ => ⟨clampQ_nonneg v, clampQ_le_one v⟩) hv.2

theorem volOk_setGlobalVolume (v : ℚ) (s : SMState) (hv : volumesInRange s) :
    volumesInRange (setGlobalVolume v s) :=
  ⟨⟨clampQ_nonneg v, clampQ_le_one v⟩, hv.2⟩

theorem volOk_setMuted (m : Bool) (s : SMState) (hv : volumesInRange s) :
    volumesInRange (setMuted m s) := by
  unfold setMuted
  split
  · exact hv
  · exact hv

theorem volOk_loadSettings (settings : SoundManagerSettings) (s : SMState)
    (hv : volumesInRange s) : volumesInRange (loadSettings settings s) := by
  unfold loadSettings
  have hfold : ∀ (l : List (String × ℚ)) (t : SMState), volumesInRange t →
      volumesInRange (l.foldl (fun acc p => setCategoryVolume p.1 p.2 acc) t) := by
    intro l
    induction l with
    | nil => intro t ht; exact ht
    | cons p ps ih => intro t ht; exact ih _ (volOk_setCategoryVolume p.1 p.2 t ht)
  exact hfold _ _ (volOk_setMuted _ _ (volOk_setGlobalVolume _ _ hv))

theorem volOk_fireFadeOutComplete (s : SMState) (hv : volumesInRange s) :
    volumesInRange (fireFadeOutComplete s) := by
  unfold fireFadeOutComplete
  split
  · exact hv
  · split
    · exact volOk_stopHandle _ _ hv
    · exact volOk_stopHandle _ _ hv

theorem volOk_stepOp (op : Op) (s : SMState) (hv : volumesInRange s)
    (hop : goodOp op) : volumesInRange (stepOp op s) := by
  cases op with
  | defineCategory name config => exact volOk_defineCategory name config s hv hop
  | registerSound key category path config => exact volOk_registerSound key category path config s hv
  | playSound key config => exact volOk_playSound key config s hv
  | playBGM key config => exact volOk_playBGM key config s hv
  | stopBGM => exact volOk_stopBGM s hv
  | stopCategory name => exact volOk_stopCategory name s hv
  | stopAll => exact volOk_stopAll s hv
  | setCategoryVolume name v => exact volOk_setCategoryVolume name v s hv
  | setGlobalVolume v => exact volOk_setGlobalVolume v s hv
  | setMuted m => exact volOk_setMuted m s hv
  | toggleMute => exact volOk_setMuted _ s hv
  | loadSettings settings => exact volOk_loadSettings settings s hv
  | hostStop h => exact volOk_stopHandle h s hv
  | hostComplete h => exact volOk_stopHandle h s hv
  | hostFadeOutComplete => exact volOk_fireFadeOutComplete s hv

/-- C8, amended: after any operation sequence on a registry whose stored
volumes are in `[0,1]`, the stored global volume is still in `[0,1]`, and so
is every category volume, provided each `defineCategory` in the sequence
passed an in-range (or absent) config volume — `defineCategory` is the one
operation that stores a caller-supplied volume unclamped (see the
counterexample); every other operation clamps. -/
theorem c8_volumes_in_range (ops : List Op) (s : SMState) (hv : volumesInRange s)
    (hops : ∀ op ∈ ops, goodOp op) : volumesInRange (run ops s) := by
  induction ops generalizing s with
  | nil => exact hv
  | cons op rest ih =>
    exact ih (stepOp op s)
      (volOk_stepOp op s hv (hops op (List.mem_cons_self op rest)))
      (fun o ho => hops o (List.mem_cons_of_mem op ho))

/-- C8 at concrete inputs: a clamping setter with an out-of-range argument,
an in-range definition and an out-of-range `setGlobalVolume` all keep the
stored volumes in `[0,1]`. -/
theorem c8_volumes_in_range_witness :
    volumesInRange (run [Op.setCategoryVolume "ui" 2,
      Op.defineCategory "y" { volume := some (1/2) }, Op.setGlobalVolume 5] demoUI) := by
  refine c8_volumes_in_range _ demoUI ?_ ?_
  · exact ⟨by norm_num [demoUI], by norm_num [demoUI, catVolsOk]⟩
  · intro op hop
    simp only [List.mem_cons, List.not_mem_nil, or_false] at hop
    rcases hop with rfl | rfl | rfl
    · trivial
    · norm_num [goodOp, configVolOk]
    · trivial

/-! ## C9: a second loadAssets call while a batch is in flight -/

/-- Two audio assets registered, nothing loading. -/
def c9reg : AMState :=
  registerAsset "b" AssetType.audio ["b.ogg"]
    (registerAsset "a" AssetType.audio ["a.ogg"] initAM)

/-- C9, the failing run evaluated on the code: the first `loadAssets(["a"])`
starts a batch that is still in flight (`pendingBatch` outstanding, loader
running) — but the `finally` block has already reset `isLoading` to `false`,
because `try { return new Promise(...) }` runs `finally` when the promise is
*returned*, not when it settles.  A second `loadAssets(["b"])` issued during
the flight therefore passes the `isLoading` guard: it is not rejected as
"Already loading assets", and it appends its asset to the running loader's
queue, contradicting the claim that it warns and adds nothing. -/
theorem c9_second_call_not_rejected :
    (loadAssetsCall (some ["a"]) c9reg).1 = LoadCallResult.started ∧
    (loadAssetsCall (some ["a"]) c9reg).2.pendingBatch = some ["a"] ∧
    (loadAssetsCall (some ["a"]) c9reg).2.loaderRunning = true ∧
    (loadAssetsCall (some ["a"]) c9reg).2.isLoading = false ∧
    (loadAssetsCall (some ["b"]) (loadAssetsCall (some ["a"]) c9reg).2).1 =
      LoadCallResult.joinedRunning ∧
    (loadAssetsCall (some ["b"]) (loadAssetsCall (some ["a"]) c9reg).2).1 ≠
      LoadCallResult.alreadyLoading ∧
    (loadAssetsCall (some ["b"]) (loadAssetsCall (some ["a"]) c9reg).2).2.loaderQueue =
      ["a", "b"] := by
  decide

/-! ## C10: ColorUtils round trip -/

theorem toHexRevAux_digits : ∀ (fuel n : Nat), n ≤ fuel →
    toHexRevAux fuel n = Nat.digits 16 n := by
  intro fuel
  induction fuel with
  | zero =>
    intro n hn
    have : n = 0 := Nat.le_zero.mp hn
    subst this
    simp [toHexRevAux, Nat.digits_zero]
  | succ f ih =>
    intro n hn
    by_cases h0 : n = 0
    · subst h0
      simp [toHexRevAux, Nat.digits_zero]
    · have hpos : 0 < n := Nat.pos_of_ne_zero h0
      have hdiv : n / 16 ≤ f := by
        have := Nat.div_lt_self hpos (by norm_num : 1 < 16)
        omega
      simp only [toHexRevAux, h0, if_neg, not_false_iff]
      rw [ih _ hdiv, Nat.digits_def' (by norm_num : 1 < 16) hpos]

theorem hexDigitVal_hexDigitChar (d : Nat) (hd : d < 16) :
    hexDigitVal (hexDigitChar d) = some d := by
  interval_cases d <;> decide

theorem parseHexAux_map (ds : List Nat) (hds : ∀ d ∈ ds, d < 16) (acc : Nat) :
    parseHexAux (ds.map hexDigitChar) acc = acc * 16 ^ ds.length + Nat.ofDigits 16 ds.reverse := by
  induction ds generalizing acc with
  | nil => simp [parseHexAux, Nat.ofDigits]
  | cons d tl ih =>
    have hd : d < 16 := hds d (List.mem_cons_self d tl)
    simp only [List.map_cons, parseHexAux, hexDigitVal_hexDigitChar d hd]
    rw [ih (fun x hx => hds x (List.mem_cons_of_mem d hx)) (acc * 16 + d)]
    simp only [List.reverse_cons, Nat.ofDigits_append, Nat.ofDigits_singleton,
      List.length_reverse, List.length_cons]
    ring

theorem parseHexAux_replicate_zero (k : Nat) (cs : List Char) :
    parseHexAux (List.replicate k '0' ++ cs) 0 = parseHexAux cs 0 := by
  induction k with
  | zero => rfl
  | succ m ih =>
    have h0 : hexDigitVal '0' = some 0 := by decide
    simp only [List.replicate_succ, List.cons_append, parseHexAux, h0]
    simpa using ih

theorem parseIntHex_validHead (c : Char) (cs : List Char) (h : (hexDigitVal c).isSome) :
    parseIntHex (c :: cs) = some (parseHexAux (c :: cs) 0) := by
  simp [parseIntHex, h]

/-- C10: for every color number `n ≤ 0xFFFFFF`, `numberToHex` renders a
`'#'`-prefixed zero-padded uppercase hex string and `hexToNumber` parses it
back to exactly `n`. -/
theorem c10_color_roundtrip (n : Nat) (hn : n ≤ 16777215) :
    hexToNumber (numberToHex n) = some n := by
  by_cases h0 : n = 0
  · subst h0
    decide
  · have hds : ∀ d ∈ (Nat.digits 16 n).reverse, d < 16 := by
      intro d hd
      exact Nat.digits_lt_base (by norm_num) (List.mem_reverse.mp hd)
    have hne : (Nat.digits 16 n).reverse ≠ [] := by
      simp only [ne_eq, List.reverse_eq_nil_iff]
      exact Nat.digits_ne_nil_iff_ne_zero.mpr h0
    have hvalue : parseHexAux ((Nat.digits 16 n).reverse.map hexDigitChar) 0 = n := by
      rw [parseHexAux_map _ hds 0]
      simp [Nat.ofDigits_digits]
    have hrepr : toHexUpper n = (Nat.digits 16 n).reverse.map hexDigitChar := by
      unfold toHexUpper
      rw [if_neg h0, toHexRevAux_digits n n le_rfl]
    unfold numberToHex hexToNumber
    rw [hrepr]
    have hdata : (String.mk ('#' :: padStart6 ((Nat.digits 16 n).reverse.map hexDigitChar))).data
        = '#' :: padStart6 ((Nat.digits 16 n).reverse.map hexDigitChar) := rfl
    rw [hdata]
    have hhash : removeFirstHash ('#' :: padStart6 ((Nat.digits 16 n).reverse.map hexDigitChar))
        = padStart6 ((Nat.digits 16 n).reverse.map hexDigitChar) := by
      simp [removeFirstHash]
    rw [hhash]
    unfold padStart6
    -- the padded string is nonempty and starts with a valid hex character
    cases hk : 6 - ((Nat.digits 16 n).reverse.map hexDigitChar).length with
    | zero =>
      simp only [List.replicate_zero, List.nil_append]
      cases hmap : (Nat.digits 16 n).reverse.map hexDigitChar with
      | nil =>
        exact absurd (List.map_eq_nil_iff.mp hmap) hne
      | cons c cs =>
        have hc : (hexDigitVal c).isSome := by
          have : c ∈ (Nat.digits 16 n).reverse.map hexDigitChar := by
            rw [hmap]; exact List.mem_cons_self c cs
          obtain ⟨d, hd, rfl⟩ := List.mem_map.mp this
          rw [hexDigitVal_hexDigitChar d (hds d hd)]
          rfl
        rw [parseIntHex_validHead c cs hc, ← hmap]
        rw [show parseHexAux ((Nat.digits 16 n).reverse.map hexDigitChar) 0 = n from hvalue]
    | succ m =>
      simp only [List.replicate_succ, List.cons_append]
      have hc : (hexDigitVal '0').isSome := by decide
      rw [parseIntHex_validHead '0' _ hc]
      have : parseHexAux ('0' :: (List.replicate m '0' ++
          (Nat.digits 16 n).reverse.map hexDigitChar)) 0 =
          parseHexAux ((Nat.digits 16 n).reverse.map hexDigitChar) 0 := by
        have := parseHexAux_replicate_zero (m + 1)
          ((Nat.digits 16 n).reverse.map hexDigitChar)
        simpa [List.replicate_succ] using this
      rw [this, hvalue]

/-- C10 at a concrete input: `0xABCDEF` survives the round trip. -/
theorem c10_color_roundtrip_witness :
    11259375 ≤ 16777215 ∧ hexToNumber (numberToHex 11259375) = some 11259375 :=
  ⟨by norm_num, c10_color_roundtrip 11259375 (by norm_num)⟩
